import Mathlib

/-!
Verification of the LLM-Checkpoint snapshot store and change-admission engine.

The development shallowly embeds the persistent store of `src/db/index.ts`
(class `FileVersionDB`, backed by two sql.js tables `files` and `versions`
declared in `src/db/schema.ts`) together with the caller-facing operations of
`src/extension.ts` (the `onWillSaveTextDocument` handler, `handleGitCommit`,
the `quickClean` and `clearAll` commands) and the export helper
`appendVersionToFile` of `src/versionTreeProvider.ts`.

Modelling conventions:
* SQLite rows become Lean structures; the `timestamp` column is not used by
  any verified property and is omitted.
* `last_insert_rowid` / AUTOINCREMENT ids are modelled by monotone counters
  `nextFileId` / `nextVersionId` held in the store state.
* SQL statements become pure state transformers; queries that return rows
  keep sql.js's ordering (insertion order, or `ORDER BY version_number DESC`
  where the query asks for it).
* The schema runs `PRAGMA foreign_keys = ON` and declares
  `files.current_version_id REFERENCES versions(id)` with no `ON DELETE`
  action, so the `DELETE FROM versions WHERE id = ?` of `deleteVersion`
  fails with a `FOREIGN KEY constraint failed` error — deleting nothing —
  whenever the targeted row is some file's current version; the embedding
  models this error path, and the caller loops mirror where the
  TypeScript catches the thrown error (`handleGitCommit` wraps its whole
  loop in try/catch; the `quickClean`/`clearAll` command callbacks are
  unguarded, so a throw aborts the rest of the loop with prior deletions
  kept).
-/

namespace LLMCheckpoint

/-- Row of the `files` table: `id`, `file_path` (UNIQUE), nullable
`current_version_id`. -/
structure FileRecord where
  id : Nat
  file_path : String
  current_version_id : Option Nat
deriving DecidableEq

/-- Row of the `versions` table: `id`, `file_id`, `content`,
`version_number`, nullable `label`.  The `timestamp` column is omitted
(no verified property mentions it). -/
structure VersionRecord where
  id : Nat
  file_id : Nat
  content : String
  version_number : Nat
  label : Option String
deriving DecidableEq

/-- The persistent store: the two row sets plus the AUTOINCREMENT counters. -/
structure DBState where
  files : List FileRecord
  versions : List VersionRecord
  nextFileId : Nat
  nextVersionId : Nat
deriving DecidableEq

/-- Errors surfaced by the store (sql.js constraint failures). -/
inductive DBErr where
  | duplicateKey
  | foreignKey
deriving DecidableEq

instance {ε α : Type} [DecidableEq ε] [DecidableEq α] :
    DecidableEq (Except ε α) := fun x y =>
  match x, y with
  | Except.ok a, Except.ok b =>
    if h : a = b then isTrue (by rw [h]) else isFalse (by simp [h])
  | Except.error a, Except.error b =>
    if h : a = b then isTrue (by rw [h]) else isFalse (by simp [h])
  | Except.ok _, Except.error _ => isFalse (by simp)
  | Except.error _, Except.ok _ => isFalse (by simp)

/-- All rows of `versions` with the given `file_id`, in table (insertion)
order. -/
def versionsOf (s : DBState) (fileId : Nat) : List VersionRecord :=
  s.versions.filter (fun v => v.file_id == fileId)

/-- `SELECT COALESCE(MAX(version_number), 0) FROM versions WHERE file_id = ?`
(used by `createVersion`). -/
def maxVersionNumber (s : DBState) (fileId : Nat) : Nat :=
  (versionsOf s fileId).foldl (fun acc v => max acc v.version_number) 0

/-- Insertion step for sorting by `version_number` descending. -/
def insertByVersionDesc (v : VersionRecord) :
    List VersionRecord → List VersionRecord
  | [] => [v]
  | w :: ws =>
    if w.version_number < v.version_number then v :: w :: ws
    else w :: insertByVersionDesc v ws

/-- `ORDER BY version_number DESC` (version numbers are unique per file by
the `UNIQUE(file_id, version_number)` constraint, so the order is
well-defined on the rows of one file). -/
def sortByVersionDesc (l : List VersionRecord) : List VersionRecord :=
  l.foldr insertByVersionDesc []

/-- `FileVersionDB.createFile`: `INSERT INTO files (file_path) VALUES (?)`.
The UNIQUE constraint on `file_path` makes the insert fail with a duplicate
key error when a row with this path exists; the statement is aborted and the
store is unchanged. -/
def createFile (s : DBState) (filePath : String) :
    DBState × Except DBErr FileRecord :=
  if s.files.any (fun f => f.file_path == filePath) then
    (s, Except.error DBErr.duplicateKey)
  else
    let f : FileRecord := ⟨s.nextFileId, filePath, none⟩
    ({ s with files := s.files ++ [f], nextFileId := s.nextFileId + 1 },
     Except.ok f)

/-- The state produced by a successful `createFile`: the new row appended
and the AUTOINCREMENT counter advanced. -/
def withNewFile (s : DBState) (filePath : String) : DBState :=
  ⟨s.files ++ [⟨s.nextFileId, filePath, none⟩], s.versions,
   s.nextFileId + 1, s.nextVersionId⟩

/-- `FileVersionDB.getFile`: `SELECT * FROM files WHERE file_path = ?`. -/
def getFile (s : DBState) (filePath : String) : Option FileRecord :=
  s.files.find? (fun f => f.file_path == filePath)

/-- `FileVersionDB.getFileById`: `SELECT * FROM files WHERE id = ?`. -/
def getFileById (s : DBState) (fileId : Nat) : Option FileRecord :=
  s.files.find? (fun f => f.id == fileId)

/-- `FileVersionDB.getAllFiles`: `SELECT * FROM files`. -/
def getAllFiles (s : DBState) : List FileRecord :=
  s.files

/-- The row-level effect of `UPDATE files SET current_version_id = ?
WHERE id = ?`. -/
def setCurrentVersion (vid : Nat) (fileId : Nat) (f : FileRecord) :
    FileRecord :=
  if f.id == fileId then { f with current_version_id := some vid } else f

/-- `FileVersionDB.createVersion`: reads the per-file maximum version
number (default 0), inserts the new row with `max + 1`, then updates the
file's `current_version_id` to `last_insert_rowid()`.  Returns the inserted
row together with the new state. -/
def createVersion (s : DBState) (fileId : Nat) (content : String) :
    VersionRecord × DBState :=
  let nextVersion := maxVersionNumber s fileId + 1
  let v : VersionRecord := ⟨s.nextVersionId, fileId, content, nextVersion, none⟩
  (v, { files := s.files.map (setCurrentVersion v.id fileId)
        versions := s.versions ++ [v]
        nextFileId := s.nextFileId
        nextVersionId := s.nextVersionId + 1 })

/-- `FileVersionDB.getFileVersions`: rows of one file ordered by
`version_number DESC`, truncated to `limit` (the TypeScript default for
`limit` is 10; call sites of the embedding pass the limit explicitly). -/
def getFileVersions (s : DBState) (fileId : Nat) (limit : Nat) :
    List VersionRecord :=
  (sortByVersionDesc (versionsOf s fileId)).take limit

/-- `FileVersionDB.getCurrentVersion`: join of `versions v` with `files f`
on `f.current_version_id = v.id` filtered by `f.id = ?`.  A null or dangling
pointer yields no row. -/
def getCurrentVersion (s : DBState) (fileId : Nat) : Option VersionRecord :=
  match getFileById s fileId with
  | none => none
  | some f =>
    match f.current_version_id with
    | none => none
    | some cv => s.versions.find? (fun v => v.id == cv)

/-- The row-level effect of a successful `DELETE FROM versions WHERE
id = ?`: the row is removed and nothing else is touched — in particular
`files.current_version_id` is left as it is. -/
def deleteVersionRows (s : DBState) (versionId : Nat) : DBState :=
  { s with versions := s.versions.filter (fun v => !(v.id == versionId)) }

/-- `FileVersionDB.deleteVersion`: `DELETE FROM versions WHERE id = ?`
under `PRAGMA foreign_keys = ON`.  When the targeted row exists and is
referenced by some file's `current_version_id` (a foreign key with no
`ON DELETE` action), SQLite raises `FOREIGN KEY constraint failed`, the
statement is aborted and no row is removed; `stmt.run` turns that into a
thrown error.  Otherwise the row (if any) is removed. -/
def deleteVersion (s : DBState) (versionId : Nat) : Except DBErr DBState :=
  if (s.versions.any (fun v => v.id == versionId))
      && (s.files.any (fun f => f.current_version_id == some versionId)) then
    Except.error DBErr.foreignKey
  else
    Except.ok (deleteVersionRows s versionId)

/-- Run `deleteVersion` over a fetched row list in order.  A constraint
error stops the iteration at the failing row; the second component records
whether the loop ran to completion (`false` means the TypeScript loop threw
mid-way, keeping the deletions already performed). -/
def deleteVersionsSeq : DBState → List VersionRecord → DBState × Bool
  | st, [] => (st, true)
  | st, v :: vs =>
    match deleteVersion st v.id with
    | Except.ok st2 => deleteVersionsSeq st2 vs
    | Except.error _ => (st, false)

/-- `FileVersionDB.updateVersion`: `UPDATE versions SET content = ?,
label = ? WHERE id = ?`. -/
def updateVersion (s : DBState) (versionId : Nat)
    (newContent newLabel : String) : DBState :=
  { s with versions := s.versions.map (fun v =>
      if v.id == versionId then
        { v with content := newContent, label := some newLabel }
      else v) }

/-- Well-formedness of a store state, as guaranteed by the schema and the
AUTOINCREMENT counters: distinct file ids and paths, file ids below the
counter, distinct version ids below the counter, the
`UNIQUE(file_id, version_number)` constraint, and the `versions.file_id`
foreign key into `files`. -/
def WF (s : DBState) : Prop :=
  s.files.Pairwise (fun f g => f.id ≠ g.id ∧ f.file_path ≠ g.file_path) ∧
  (∀ f ∈ s.files, f.id < s.nextFileId) ∧
  s.versions.Pairwise (fun v w =>
    v.id ≠ w.id ∧ (v.file_id = w.file_id → v.version_number ≠ w.version_number)) ∧
  (∀ v ∈ s.versions, v.id < s.nextVersionId) ∧
  (∀ v ∈ s.versions, ∃ f ∈ s.files, f.id = v.file_id)

instance (s : DBState) : Decidable (WF s) := by
  unfold WF; infer_instance

/-! ### The admission policy of the `onWillSaveTextDocument` handler

The handler (significant-change mode) diffs the previous and candidate
contents with `createPatch` from the `diff` npm package and counts the
patch-body lines starting with `+` or `-`, excluding the `+++`/`---` file
headers.  `createPatch` produces a minimal line-level diff (Myers), so that
count equals `m + n - 2 * lcs` where `m`, `n` are the line counts of the two
texts and `lcs` is the length of their longest common line subsequence.
Lines are tokenized keeping their trailing newline, as `diffLines` does. -/

/-- JavaScript `split('\n')` on the character list of a string (`''.split`
yields one empty piece, as in JS). -/
def splitNLChars : List Char → List (List Char)
  | [] => [[]]
  | c :: cs =>
    let r := splitNLChars cs
    if c = '\n' then [] :: r
    else
      match r with
      | [] => [[c]]
      | h :: t => (c :: h) :: t

/-- JavaScript `content.split('\n')` as a list of strings. -/
def jsSplitNL (s : String) : List String :=
  (splitNLChars s.data).map String.mk

/-- The lines of a string, each keeping its trailing newline (the tokenizer
of `diffLines`): `"a\nb"` becomes `["a\n", "b"]`, `"a\n"` becomes
`["a\n"]`. -/
def linesKeepNL (s : String) : List String :=
  let parts := jsSplitNL s
  match parts.getLast? with
  | none => []
  | some last =>
    let withNL := (parts.dropLast).map (fun l => l ++ "\n")
    if last = "" then withNL else withNL ++ [last]

/-- Length of a longest common subsequence, with explicit fuel (each
recursive call shortens the combined length by exactly one, so the fuel of
`lcsLen` below is exact). -/
def lcsLenFuel : Nat → List String → List String → Nat
  | 0, _, _ => 0
  | _ + 1, [], _ => 0
  | _ + 1, _ :: _, [] => 0
  | fuel + 1, x :: xs, y :: ys =>
    if x = y then 1 + lcsLenFuel fuel xs ys
    else max (lcsLenFuel fuel xs (y :: ys)) (lcsLenFuel fuel (x :: xs) ys)

/-- Length of a longest common subsequence of two lists of lines. -/
def lcsLen (xs ys : List String) : Nat :=
  lcsLenFuel (xs.length + ys.length) xs ys

/-- Number of insert/delete lines in the minimal line diff between two
texts: the count obtained in the handler from
`createPatch(...).split('\n').filter(+ or -).filter(not header)`. -/
def changedLineCount (prev next : String) : Nat :=
  let pl := linesKeepNL prev
  let nl := linesKeepNL next
  let l := lcsLen pl nl
  (pl.length - l) + (nl.length - l)

/-- The body of the `onWillSaveTextDocument` handler once the file record
is at hand (`src/extension.ts`): reject when the latest stored content is
byte-identical; in significant-change mode (`saveAllChanges = false`)
additionally require more than one line for a first snapshot, or more than
2 changed diff lines against the previous snapshot; otherwise
`createVersion`. -/
def onWillSaveWithFile (s : DBState) (f : FileRecord) (content : String)
    (saveAllChanges : Bool) : DBState :=
  let identicalLatest :=
    match getFileVersions s f.id 1 with
    | v :: _ => v.content == content
    | [] => false
  if identicalLatest then s
  else if !saveAllChanges then
    match getFileVersions s f.id 1 with
    | [] =>
      if (jsSplitNL content).length ≤ 1 then s
      else (createVersion s f.id content).2
    | v :: _ =>
      if changedLineCount v.content content ≤ 2 then s
      else (createVersion s f.id content).2
  else (createVersion s f.id content).2

/-- The `onWillSaveTextDocument` handler (`src/extension.ts`): get-or-create
the file record for the saved path, then run the admission policy on the
candidate content.  (The impossible duplicate-key branch of the
get-or-create returns the store unchanged, as the thrown error would.) -/
def onWillSave (s : DBState) (relativePath content : String)
    (saveAllChanges : Bool) : DBState :=
  match getFile s relativePath with
  | some f => onWillSaveWithFile s f content saveAllChanges
  | none =>
    match createFile s relativePath with
    | (s1, Except.ok f) => onWillSaveWithFile s1 f content saveAllChanges
    | (s1, Except.error _) => s1

/-! ### The commit reconciler (`handleGitCommit` in `src/extension.ts`) -/

/-- Whether the first list is a prefix of the second. -/
def isPrefixList : List Char → List Char → Bool
  | [], _ => true
  | _ :: _, [] => false
  | p :: ps, c :: cs => p == c && isPrefixList ps cs

/-- Index of the first occurrence of `pat` as a contiguous sublist. -/
def findSubIdx (pat : List Char) : List Char → Option Nat
  | [] => if pat.isEmpty then some 0 else none
  | c :: cs =>
    if isPrefixList pat (c :: cs) then some 0
    else (findSubIdx pat cs).map (· + 1)

/-- Whether `suffix` ends the list `l`. -/
def endsWithList (suffix l : List Char) : Bool :=
  isPrefixList suffix.reverse l.reverse

/-- `s.endsWith t` for the ASCII paths and markers in scope. -/
def strEndsWith (s t : String) : Bool :=
  endsWithList t.data s.data

/-- JavaScript `msg.trim()` (the commit messages in scope use ASCII
whitespace only). -/
def jsTrim (s : String) : String :=
  String.mk
    (((s.data.dropWhile Char.isWhitespace).reverse.dropWhile
        Char.isWhitespace).reverse)

/-- `content.replace(/\/\* Git commit:.*\*\/\n/g, '')`: since `.` does not
match a newline, a match runs from an occurrence of `"/* Git commit:"` to
the end of a line that ends in `"*/"` (the match being at least the 16
characters `"/* Git commit:"` + `"*/"` long), consuming the newline; the
rest of the line before the marker is joined with the following line and
scanning continues there.  `stripLine l` returns the index of the first
matchable marker occurrence in line `l`, if any. -/
def stripLine (l : List Char) : Option Nat :=
  match findSubIdx ("/* Git commit:".data) l with
  | some i =>
    if endsWithList ("*/".data) l && decide (i + 16 ≤ l.length) then some i
    else none
  | none => none

/-- Marker removal on the newline-separated line list (the last line has no
trailing newline, so it can never complete a match).  The fuel is the list
length, which both branches decrease by exactly one. -/
def stripGoFuel : Nat → List (List Char) → List (List Char)
  | 0, ls => ls
  | _ + 1, [] => []
  | _ + 1, [l] => [l]
  | fuel + 1, l :: l2 :: rest =>
    match stripLine l with
    | some i => stripGoFuel fuel ((l.take i ++ l2) :: rest)
    | none => l :: stripGoFuel fuel (l2 :: rest)

/-- Rejoin lines with newlines. -/
def joinNLChars : List (List Char) → List Char
  | [] => []
  | [l] => l
  | l :: ls => l ++ '\n' :: joinNLChars ls

/-- The global-regex replacement used by `handleGitCommit` to strip
previously embedded commit markers from a snapshot's content. -/
def stripGitCommitMarkers (content : String) : String :=
  let ls := splitNLChars content.data
  String.mk (joinNLChars (stripGoFuel ls.length ls))

/-- The file loop of `handleGitCommit`: skip files not named in the
commit's changed-file list or without snapshots; otherwise rewrite the
latest snapshot (fetched with the default limit 10) with the
commit-message marker and label, and, when auto-cleanup is on, delete
every fetched version of the file.  The whole loop sits inside one
try/catch, so a thrown constraint error (second component `false`) aborts
the remaining deletions and the remaining files.  (`path.normalize` is the
identity on the normalized workspace-relative paths in scope.) -/
def handleGitCommitGo (changedFiles : List String) (commitMessage : String)
    (autoCleanup : Bool) : List FileRecord → DBState → DBState × Bool
  | [], st => (st, true)
  | file :: rest, st =>
    if !(changedFiles.contains file.file_path) then
      handleGitCommitGo changedFiles commitMessage autoCleanup rest st
    else
      match getFileVersions st file.id 10 with
      | [] => handleGitCommitGo changedFiles commitMessage autoCleanup rest st
      | latest :: older =>
        let newContent := "/* Git commit: " ++ commitMessage ++ " */\n"
          ++ stripGitCommitMarkers latest.content
        let st1 := updateVersion st latest.id newContent commitMessage
        if autoCleanup then
          match deleteVersionsSeq st1 (latest :: older) with
          | (st2, true) =>
            handleGitCommitGo changedFiles commitMessage autoCleanup rest st2
          | (st2, false) => (st2, false)
        else handleGitCommitGo changedFiles commitMessage autoCleanup rest st1

/-- `handleGitCommit` (`src/extension.ts`): bail out without a commit hash
or with an empty (or whitespace) commit message; otherwise process every
file of the store against the commit's changed-file list.  The outer
try/catch swallows a thrown constraint error, leaving the store as of the
throw. -/
def handleGitCommit (s : DBState) (changedFiles : List String)
    (commitHash : Option String) (commitMessage : Option String)
    (autoCleanup : Bool) : DBState :=
  match commitHash, commitMessage with
  | some _, some msg =>
    if jsTrim msg == "" then s
    else (handleGitCommitGo changedFiles msg autoCleanup (getAllFiles s) s).1
  | _, _ => s

/-! ### Bulk lifecycle commands (`src/extension.ts`) -/

/-- The file loop of the `llmcheckpoint.quickClean` command: for every
file, fetch its versions (default limit 10, newest first) and, when there
are more than one, delete all but the first fetched one.  The command
callback has no try/catch, so a thrown constraint error aborts the rest of
the loop (prior deletions kept). -/
def quickCleanGo : List FileRecord → DBState → DBState × Bool
  | [], st => (st, true)
  | file :: rest, st =>
    let versions := getFileVersions st file.id 10
    if versions.length > 1 then
      match deleteVersionsSeq st (versions.drop 1) with
      | (st2, true) => quickCleanGo rest st2
      | (st2, false) => (st2, false)
    else quickCleanGo rest st

/-- The `llmcheckpoint.quickClean` command. -/
def quickClean (s : DBState) : DBState :=
  (quickCleanGo (getAllFiles s) s).1

/-- The file loop of the `llmcheckpoint.clearAll` command: for every file,
fetch its versions (default limit 10) and delete each of them.  The
command callback has no try/catch, so a thrown constraint error aborts the
rest of the loop (prior deletions kept). -/
def clearAllGo : List FileRecord → DBState → DBState × Bool
  | [], st => (st, true)
  | file :: rest, st =>
    match deleteVersionsSeq st (getFileVersions st file.id 10) with
    | (st2, true) => clearAllGo rest st2
    | (st2, false) => (st2, false)

/-- The `llmcheckpoint.clearAll` command. -/
def clearAll (s : DBState) : DBState :=
  (clearAllGo (getAllFiles s) s).1

/-! ### Export/append (`appendVersionToFile` in `src/versionTreeProvider.ts`) -/

/-- `path.join(filePath, 'history_context.txt')` for the paths in scope. -/
def joinDefaultName (filePath : String) : String :=
  if strEndsWith filePath "/" then filePath ++ "history_context.txt"
  else filePath ++ "/history_context.txt"

/-- Resolution of the configured export path: a destination that stats as a
directory gets the default filename appended; when the stat fails
(`statResult = none`) the same happens only for a trailing-separator path. -/
def resolveExportPath (filePath : String) (statResult : Option Bool) : String :=
  match statResult with
  | some isDir => if isDir then joinDefaultName filePath else filePath
  | none =>
    if strEndsWith filePath "/" || strEndsWith filePath "\\" then
      joinDefaultName filePath
    else filePath

/-- The block appended to the destination file. -/
def appendBlock (finalPath : String) (content : String) : String :=
  "\n\nVersion from " ++ finalPath ++ "\n\n" ++ content

/-- `appendVersionToFile`: throws on falsy (empty) snapshot content,
otherwise appends the block to the previous destination contents
(`fs.promises.appendFile`).  The returned string is the new destination
contents. -/
def appendVersionToFile (destPrev : String) (version : VersionRecord)
    (finalPath : String) : Except String String :=
  if version.content = "" then
    Except.error "Version content is missing or undefined"
  else
    Except.ok (destPrev ++ appendBlock finalPath version.content)

/-! ### Views used to state the verified properties -/

/-- Characterisation of the handler's decision (proved equal to the effect
of `onWillSaveWithFile` below): whether a candidate save leads to
`createVersion`. -/
def policyAccepts (s : DBState) (f : FileRecord) (c : String)
    (saveAllChanges : Bool) : Bool :=
  match getFileVersions s f.id 1 with
  | [] =>
    if saveAllChanges then true else decide (1 < (jsSplitNL c).length)
  | v :: _ =>
    if v.content == c then false
    else if saveAllChanges then true
    else decide (2 < changedLineCount v.content c)

/-! ### Iterated snapshot creation (for the sequencing property) -/

/-- Run `createVersion` once per content in order, collecting the created
rows. -/
def createVersionsAcc (s : DBState) (fileId : Nat) :
    List String → List VersionRecord × DBState
  | [] => ([], s)
  | c :: cs =>
    let (r, s1) := createVersion s fileId c
    let (rs, s2) := createVersionsAcc s1 fileId cs
    (r :: rs, s2)

/-! ### Concrete store states used as inputs of the closed theorems -/

/-- Reconciliation scenario of the spec: `a.txt` with snapshots v1, v2, v3
(current pointer on v3), `b.txt` with one snapshot. -/
def exRecon : DBState :=
  ⟨[⟨0, "a.txt", some 2⟩, ⟨1, "b.txt", some 3⟩],
   [⟨0, 0, "a1", 1, none⟩, ⟨1, 0, "a2", 2, none⟩, ⟨2, 0, "a3", 3, none⟩,
    ⟨3, 1, "b1", 1, none⟩], 2, 4⟩

/-- A store with one file holding eleven snapshots, numbered 1 to 11. -/
def exEleven : DBState :=
  ⟨[⟨0, "f.txt", some 10⟩],
   (List.range 11).map (fun i => ⟨i, 0, "c", i + 1, none⟩), 1, 11⟩

/-- A store with one file holding two snapshots, the current pointer on the
second (id 1, version number 2). -/
def exPair : DBState :=
  ⟨[⟨0, "a.txt", some 1⟩],
   [⟨0, 0, "one", 1, none⟩, ⟨1, 0, "two", 2, none⟩], 1, 2⟩

/-- A store with one file record and no snapshots at all. -/
def exSeq : DBState := ⟨[⟨0, "a.txt", none⟩], [], 1, 0⟩

/-- A store with one file holding a single four-line snapshot. -/
def exOne : DBState :=
  ⟨[⟨0, "f.txt", some 0⟩], [⟨0, 0, "a\nb\nc\nd", 1, none⟩], 1, 1⟩

/-- A store with one file holding three snapshots whose current pointer is
on the oldest one (id 0), so its max-numbered snapshot (id 2, number 3) is
not the current version and may be deleted. -/
def exDetached : DBState :=
  ⟨[⟨0, "d.txt", some 0⟩],
   [⟨0, 0, "one", 1, none⟩, ⟨1, 0, "two", 2, none⟩,
    ⟨2, 0, "three", 3, none⟩], 1, 3⟩

/-! ## Helper lemmas -/

theorem find?_map_pred {α : Type} (g : α → α) (p : α → Bool) (l : List α)
    (hp : ∀ a, p (g a) = p a) : (l.map g).find? p = (l.find? p).map g := by
  induction l with
  | nil => rfl
  | cons a t ih =>
    rw [List.map_cons, List.find?_cons, List.find?_cons, hp a]
    cases h : p a <;> simp [ih]

theorem find?_filter_of_ne {α : Type} (p q : α → Bool) (l : List α)
    (h : ∀ a, p a = true → q a = true) :
    (l.filter q).find? p = l.find? p := by
  induction l with
  | nil => rfl
  | cons a t ih =>
    rw [List.filter_cons]
    cases hq : q a with
    | true =>
      rw [if_pos rfl, List.find?_cons, List.find?_cons]
      cases hp : p a <;> simp [ih]
    | false =>
      rw [if_neg (by simp)]
      rw [List.find?_cons]
      cases hp : p a with
      | true => exact absurd (h a hp) (by simp [hq])
      | false => simp [ih]

theorem foldl_max_acc (l : List Nat) (a : Nat) :
    l.foldl max a = max a (l.foldl max 0) := by
  induction l generalizing a with
  | nil => simp
  | cons x t ih =>
    rw [List.foldl_cons, List.foldl_cons, ih (max a x), ih (max 0 x)]
    omega

theorem le_foldl_max (l : List Nat) (x : Nat) (hx : x ∈ l) :
    x ≤ l.foldl max 0 := by
  induction l with
  | nil => cases hx
  | cons a t ih =>
    rw [List.foldl_cons, foldl_max_acc]
    rcases List.mem_cons.mp hx with h | h
    · omega
    · have := ih h; omega

theorem foldl_max_le (l : List Nat) (b : Nat) (h : ∀ x ∈ l, x ≤ b) :
    l.foldl max 0 ≤ b := by
  induction l with
  | nil => simp
  | cons a t ih =>
    rw [List.foldl_cons, foldl_max_acc]
    have ha := h a (List.mem_cons_self a t)
    have ht := ih (fun x hx => h x (List.mem_cons_of_mem _ hx))
    omega

theorem maxVersionNumber_eq_foldl (s : DBState) (fid : Nat) :
    maxVersionNumber s fid
      = ((versionsOf s fid).map (fun v => v.version_number)).foldl max 0 := by
  unfold maxVersionNumber
  rw [List.foldl_map]

theorem version_number_le_max {s : DBState} {fid : Nat} {w : VersionRecord}
    (hw : w ∈ versionsOf s fid) :
    w.version_number ≤ maxVersionNumber s fid := by
  rw [maxVersionNumber_eq_foldl]
  exact le_foldl_max _ _ (List.mem_map_of_mem _ hw)

theorem foldr_insert_base_max (l : List VersionRecord) (v : VersionRecord)
    (h : ∀ w ∈ l, w.version_number < v.version_number) :
    l.foldr insertByVersionDesc [v] = v :: l.foldr insertByVersionDesc [] := by
  induction l with
  | nil => rfl
  | cons w t ih =>
    rw [List.foldr_cons, List.foldr_cons,
      ih (fun x hx => h x (List.mem_cons_of_mem _ hx))]
    have hw := h w (List.mem_cons_self w t)
    have hlt : ¬ (v.version_number < w.version_number) := by omega
    conv_lhs => rw [insertByVersionDesc]
    rw [if_neg hlt]

theorem sortByVersionDesc_append_gt (l : List VersionRecord)
    (v : VersionRecord)
    (h : ∀ w ∈ l, w.version_number < v.version_number) :
    sortByVersionDesc (l ++ [v]) = v :: sortByVersionDesc l := by
  unfold sortByVersionDesc
  rw [List.foldr_append]
  exact foldr_insert_base_max l v h

theorem setCurrentVersion_id (vid fid : Nat) (f : FileRecord) :
    (setCurrentVersion vid fid f).id = f.id := by
  unfold setCurrentVersion; split <;> rfl

theorem setCurrentVersion_path (vid fid : Nat) (f : FileRecord) :
    (setCurrentVersion vid fid f).file_path = f.file_path := by
  unfold setCurrentVersion; split <;> rfl

theorem createVersion_fst (s : DBState) (fid : Nat) (c : String) :
    (createVersion s fid c).1
      = ⟨s.nextVersionId, fid, c, maxVersionNumber s fid + 1, none⟩ := rfl

theorem createVersion_fst_id (s : DBState) (fid : Nat) (c : String) :
    (createVersion s fid c).1.id = s.nextVersionId := rfl

theorem createVersion_fst_file_id (s : DBState) (fid : Nat) (c : String) :
    (createVersion s fid c).1.file_id = fid := rfl

theorem createVersion_fst_content (s : DBState) (fid : Nat) (c : String) :
    (createVersion s fid c).1.content = c := rfl

theorem createVersion_fst_vn (s : DBState) (fid : Nat) (c : String) :
    (createVersion s fid c).1.version_number
      = maxVersionNumber s fid + 1 := rfl

theorem createVersion_versions (s : DBState) (fid : Nat) (c : String) :
    (createVersion s fid c).2.versions
      = s.versions ++ [(createVersion s fid c).1] := rfl

theorem createVersion_files (s : DBState) (fid : Nat) (c : String) :
    (createVersion s fid c).2.files
      = s.files.map (setCurrentVersion s.nextVersionId fid) := rfl

theorem versionsOf_createVersion (s : DBState) (fid : Nat) (c : String)
    (j : Nat) :
    versionsOf (createVersion s fid c).2 j
      = if j = fid then versionsOf s j ++ [(createVersion s fid c).1]
        else versionsOf s j := by
  unfold versionsOf
  rw [createVersion_versions, List.filter_append]
  by_cases hj : j = fid
  · rw [if_pos hj]
    congr 1
    simp [createVersion_fst, List.filter_cons, hj]
  · rw [if_neg hj]
    have : ((createVersion s fid c).1.file_id == j) = false := by
      rw [createVersion_fst_file_id]
      simp
      omega
    simp [List.filter_cons, this]

theorem getFile_createVersion (s : DBState) (fid : Nat) (c : String)
    (p : String) :
    getFile (createVersion s fid c).2 p
      = (getFile s p).map (setCurrentVersion s.nextVersionId fid) := by
  unfold getFile
  rw [createVersion_files]
  exact find?_map_pred _ _ _ (fun a => by rw [setCurrentVersion_path])

theorem getFileById_createVersion (s : DBState) (fid : Nat) (c : String)
    (j : Nat) :
    getFileById (createVersion s fid c).2 j
      = (getFileById s j).map (setCurrentVersion s.nextVersionId fid) := by
  unfold getFileById
  rw [createVersion_files]
  exact find?_map_pred _ _ _ (fun a => by rw [setCurrentVersion_id])

theorem getFileVersions_one_createVersion (s : DBState) (fid : Nat)
    (c : String) :
    getFileVersions (createVersion s fid c).2 fid 1
      = [(createVersion s fid c).1] := by
  unfold getFileVersions
  rw [versionsOf_createVersion, if_pos rfl, sortByVersionDesc_append_gt]
  · rfl
  · intro w hw
    have h1 := version_number_le_max hw
    rw [createVersion_fst_vn]
    omega

theorem getFileById_some_of_exists {s : DBState} {fid : Nat}
    (h : ∃ f ∈ s.files, f.id = fid) :
    ∃ f, getFileById s fid = some f ∧ f.id = fid := by
  obtain ⟨f, hf, hid⟩ := h
  have hsome : (s.files.find? (fun g => g.id == fid)).isSome :=
    List.find?_isSome.mpr ⟨f, hf, by simp [hid]⟩
  obtain ⟨g, hg⟩ := Option.isSome_iff_exists.mp hsome
  refine ⟨g, hg, ?_⟩
  have := List.find?_some hg
  simpa using this

theorem getFile_none_any_false {s : DBState} {p : String}
    (h : getFile s p = none) :
    s.files.any (fun f => f.file_path == p) = false := by
  unfold getFile at h
  rw [List.find?_eq_none] at h
  rw [List.any_eq_false]
  exact h

theorem createFile_of_absent (s : DBState) (p : String)
    (h : getFile s p = none) :
    createFile s p
      = (withNewFile s p, Except.ok ⟨s.nextFileId, p, none⟩) := by
  unfold createFile withNewFile
  rw [getFile_none_any_false h]
  rfl

theorem getFile_withNewFile (s : DBState) (p : String)
    (h : getFile s p = none) :
    getFile (withNewFile s p) p = some ⟨s.nextFileId, p, none⟩ := by
  unfold getFile at h ⊢
  unfold withNewFile
  rw [List.find?_append, h]
  simp [List.find?]

theorem versionsOf_mem {s : DBState} {fid : Nat} {w : VersionRecord} :
    w ∈ versionsOf s fid ↔ w ∈ s.versions ∧ w.file_id = fid := by
  unfold versionsOf
  simp [List.mem_filter]

/-- The pairwise relation of `WF` on versions is symmetric. -/
theorem versionRelSymm : Symmetric (fun v w : VersionRecord =>
    v.id ≠ w.id ∧
    (v.file_id = w.file_id → v.version_number ≠ w.version_number)) := by
  intro a b hab
  exact ⟨Ne.symm hab.1, fun h hn => hab.2 h.symm hn.symm⟩

theorem versions_unique_id {s : DBState} (hwf : WF s)
    {v w : VersionRecord} (hv : v ∈ s.versions) (hw : w ∈ s.versions)
    (hid : v.id = w.id) : v = w := by
  by_contra hne
  exact (List.Pairwise.forall versionRelSymm hwf.2.2.1 hv hw hne).1 hid

theorem versions_unique_number {s : DBState} (hwf : WF s)
    {v w : VersionRecord} (hv : v ∈ s.versions) (hw : w ∈ s.versions)
    (hfile : v.file_id = w.file_id)
    (hnum : v.version_number = w.version_number) : v = w := by
  by_contra hne
  exact (List.Pairwise.forall versionRelSymm hwf.2.2.1 hv hw hne).2 hfile hnum

theorem versionsOf_deleteVersionRows (s : DBState) (vid fid : Nat) :
    versionsOf (deleteVersionRows s vid) fid
      = (versionsOf s fid).filter (fun w => !(w.id == vid)) := by
  unfold versionsOf deleteVersionRows
  simp [List.filter_filter, Bool.and_comm]

theorem deleteVersion_ok_of_not_current {s : DBState} {vid : Nat}
    (h : ∀ f ∈ s.files, ¬ f.current_version_id = some vid) :
    deleteVersion s vid = Except.ok (deleteVersionRows s vid) := by
  unfold deleteVersion
  have hany : s.files.any (fun f => f.current_version_id == some vid)
      = false := by
    rw [List.any_eq_false]
    intro f hf
    simpa using h f hf
  rw [hany, Bool.and_false]
  rfl

theorem onWillSaveWithFile_eq (s : DBState) (f : FileRecord) (c : String)
    (m : Bool) :
    onWillSaveWithFile s f c m
      = if policyAccepts s f c m then (createVersion s f.id c).2 else s := by
  unfold onWillSaveWithFile policyAccepts
  cases hv : getFileVersions s f.id 1 with
  | nil =>
    cases m with
    | true => simp
    | false =>
      by_cases hl : (jsSplitNL c).length ≤ 1
      · simp [hl, Nat.not_lt.mpr hl]
      · simp [hl, Nat.lt_of_not_le hl]
  | cons v t =>
    by_cases hc : (v.content == c) = true
    · simp [hc]
    · have hc2 : (v.content == c) = false := by
        cases h : (v.content == c) <;> simp_all
      cases m with
      | true => simp [hc2]
      | false =>
        by_cases hd : changedLineCount v.content c ≤ 2
        · simp [hc2, Nat.not_lt.mpr hd]
        · simp [hc2, Nat.lt_of_not_le hd]

theorem onWillSave_of_getFile_some (s : DBState) (p c : String) (m : Bool)
    (f : FileRecord) (hf : getFile s p = some f) :
    onWillSave s p c m
      = if policyAccepts s f c m then (createVersion s f.id c).2 else s := by
  unfold onWillSave
  rw [hf]
  exact onWillSaveWithFile_eq s f c m

theorem onWillSave_of_getFile_none (s : DBState) (p c : String) (m : Bool)
    (hf : getFile s p = none) :
    onWillSave s p c m
      = if policyAccepts (withNewFile s p) ⟨s.nextFileId, p, none⟩ c m
        then (createVersion (withNewFile s p) s.nextFileId c).2
        else withNewFile s p := by
  unfold onWillSave
  rw [hf, createFile_of_absent s p hf]
  exact onWillSaveWithFile_eq (withNewFile s p) ⟨s.nextFileId, p, none⟩ c m

theorem policyAccepts_after_create (s : DBState) (fid : Nat) (c : String)
    (m : Bool) (f : FileRecord) (hid : f.id = fid) :
    policyAccepts (createVersion s fid c).2 f c m = false := by
  unfold policyAccepts
  rw [hid, getFileVersions_one_createVersion]
  simp [createVersion_fst_content]

/-- **C8.** `createFile(path)` fails with a `DuplicateKey` error whenever a
file record with that path already exists, and in that case the store is
left unchanged. -/
theorem createFile_duplicate_fails_unchanged (s : DBState) (p : String)
    (h : ∃ f ∈ s.files, f.file_path = p) :
    createFile s p = (s, Except.error DBErr.duplicateKey) := by
  have hany : s.files.any (fun f => f.file_path == p) = true := by
    rw [List.any_eq_true]
    obtain ⟨f, hf, he⟩ := h
    exact ⟨f, hf, by simp [he]⟩
  unfold createFile
  rw [hany]
  rfl

/-- Witness for C8 at a concrete store: creating `"a.txt"` again fails and
leaves the store untouched. -/
theorem createFile_duplicate_fails_unchanged_witness :
    createFile exPair "a.txt" = (exPair, Except.error DBErr.duplicateKey) :=
  createFile_duplicate_fails_unchanged exPair "a.txt"
    ⟨⟨0, "a.txt", some 1⟩, by decide, rfl⟩

/-- **C9 counterexample.** For a snapshot whose stored content is the empty
string, `appendVersionToFile` raises (`!version.content` is true for `''`
in JavaScript) instead of appending the block, so the destination is not
`previous ++ block` as the claim states for every snapshot. -/
theorem appendVersionToFile_empty_content_cex :
    appendVersionToFile "PREV" ⟨0, 0, "", 1, none⟩ "hist.txt"
      ≠ Except.ok ("PREV" ++ appendBlock "hist.txt" "") := by decide

/-- **C9 (amended).** For every snapshot with non-empty content and every
pre-existing destination contents, `appendVersionToFile` yields the
previous contents followed by the appended block; the resulting length is
the previous length plus the block's length, and the block contains the
snapshot's literal content. -/
theorem appendVersionToFile_appends_block (destPrev : String)
    (v : VersionRecord) (finalPath : String) (h : v.content ≠ "") :
    appendVersionToFile destPrev v finalPath
      = Except.ok (destPrev ++ appendBlock finalPath v.content) ∧
    (destPrev ++ appendBlock finalPath v.content).length
      = destPrev.length + (appendBlock finalPath v.content).length ∧
    ∃ a b, destPrev ++ appendBlock finalPath v.content
      = a ++ (v.content ++ b) := by
  refine ⟨?_, ?_, ?_⟩
  · unfold appendVersionToFile
    rw [if_neg h]
  · exact String.length_append _ _
  · refine ⟨destPrev ++ "\n\nVersion from " ++ finalPath ++ "\n\n", "", ?_⟩
    unfold appendBlock
    rw [String.append_empty]
    simp [String.append_assoc]

/-- Witness for C9 at concrete inputs. -/
theorem appendVersionToFile_appends_block_witness :
    appendVersionToFile "PREV" ⟨7, 3, "body", 2, none⟩ "hist.txt"
      = Except.ok ("PREV" ++ appendBlock "hist.txt" "body") :=
  (appendVersionToFile_appends_block "PREV" ⟨7, 3, "body", 2, none⟩
    "hist.txt" (by decide)).1

/-- **C4 counterexample.** Deleting the current snapshot (id 1) of a
two-snapshot file does not re-point the file at the remaining snapshot or
at null: under the schema's enabled foreign-key enforcement
(`files.current_version_id REFERENCES versions(id)`, no `ON DELETE`
action) the `DELETE` itself fails with `FOREIGN KEY constraint failed` and
removes nothing. -/
theorem deleteVersion_current_pointer_cex :
    deleteVersion exPair 1 = Except.error DBErr.foreignKey := by decide

/-- **C4 (amended).** Deleting a snapshot that no file's
`current_version_id` references succeeds, removes exactly that snapshot,
never renumbers the remaining ones, leaves every file record (pointer
included) unchanged and so leaves the current-version lookup of every file
unchanged.  Deleting a snapshot that is some file's current version —
which a snapshot of that file always is right after its creation — fails
with a foreign-key constraint error, the store left unchanged, instead of
re-pointing the file at the next-most-recent snapshot or null. -/
theorem deleteVersion_pointer_frame (s : DBState) (vid : Nat) :
    ((∀ f ∈ s.files, ¬ f.current_version_id = some vid) →
      deleteVersion s vid = Except.ok (deleteVersionRows s vid)
      ∧ (deleteVersionRows s vid).files = s.files
      ∧ (∀ v, v ∈ (deleteVersionRows s vid).versions
          ↔ v ∈ s.versions ∧ v.id ≠ vid)
      ∧ (∀ fid, getCurrentVersion (deleteVersionRows s vid) fid
          = getCurrentVersion s fid))
    ∧ ((∃ v ∈ s.versions, v.id = vid) →
      (∃ f ∈ s.files, f.current_version_id = some vid) →
      deleteVersion s vid = Except.error DBErr.foreignKey) := by
  constructor
  · intro hnc
    refine ⟨deleteVersion_ok_of_not_current hnc, rfl, ?_, ?_⟩
    · intro v
      unfold deleteVersionRows
      simp [List.mem_filter]
    · intro fid
      have hfid : getFileById (deleteVersionRows s vid) fid
          = getFileById s fid := rfl
      cases hgf : getFileById s fid with
      | none => simp only [getCurrentVersion, hfid, hgf]
      | some f =>
        cases hcv : f.current_version_id with
        | none => simp only [getCurrentVersion, hfid, hgf, hcv]
        | some cv =>
          have hfmem : f ∈ s.files := by
            have := List.mem_of_find?_eq_some hgf
            exact this
          have hne : cv ≠ vid := by
            intro hEq
            exact hnc f hfmem (by rw [hcv, hEq])
          simp only [getCurrentVersion, hfid, hgf, hcv]
          show (deleteVersionRows s vid).versions.find? (fun v => v.id == cv)
            = s.versions.find? (fun v => v.id == cv)
          unfold deleteVersionRows
          apply find?_filter_of_ne
          intro a ha
          simp at ha ⊢
          omega
  · intro hv hf
    unfold deleteVersion
    have h1 : s.versions.any (fun v => v.id == vid) = true := by
      rw [List.any_eq_true]
      obtain ⟨v, hvm, hvid⟩ := hv
      exact ⟨v, hvm, by simp [hvid]⟩
    have h2 : s.files.any (fun f => f.current_version_id == some vid)
        = true := by
      rw [List.any_eq_true]
      obtain ⟨f, hfm, hfc⟩ := hf
      exact ⟨f, hfm, by simp [hfc]⟩
    rw [h1, h2]
    rfl

/-- Witness for C4 at a concrete store: deleting the non-current snapshot
id 0 succeeds and leaves every current-version lookup unchanged. -/
theorem deleteVersion_pointer_frame_witness :
    deleteVersion exPair 0 = Except.ok (deleteVersionRows exPair 0)
    ∧ (deleteVersionRows exPair 0).files = exPair.files
    ∧ (∀ v, v ∈ (deleteVersionRows exPair 0).versions
        ↔ v ∈ exPair.versions ∧ v.id ≠ 0)
    ∧ (∀ fid, getCurrentVersion (deleteVersionRows exPair 0) fid
        = getCurrentVersion exPair fid) :=
  (deleteVersion_pointer_frame exPair 0).1 (by decide)

/-- **C2.** On the spec's reconciliation scenario (`a.txt` with snapshots
v1 v2 v3, a commit touching `a.txt` with message `"fix bug"`, auto-cleanup
on), the code labels the latest snapshot and then tries to delete every
fetched snapshot starting with that labeled latest one — which is the
file's current version, so the delete fails the foreign-key constraint and
`handleGitCommit`'s catch aborts the loop: `a.txt` ends with all three
snapshots (only the latest labeled) instead of the claimed single labeled
snapshot.  `b.txt`, absent from the changed-file list, keeps its full
history. -/
theorem handleGitCommit_autoCleanup_fk_aborts :
    (versionsOf (handleGitCommit exRecon ["a.txt"] (some "abc123")
        (some "fix bug") true) 0).map
        (fun v => (v.version_number, v.label))
      = [(1, none), (2, none), (3, some "fix bug")] ∧
    versionsOf (handleGitCommit exRecon ["a.txt"] (some "abc123")
        (some "fix bug") true) 1 = versionsOf exRecon 1 := by decide

/-- **C3.** `quickClean` fetches each file's versions with the default
`LIMIT 10`: on a file with eleven snapshots it deletes only the nine
versions behind the newest of the fetched ten, leaving two snapshots
(numbers 11 and 1) instead of the claimed single most-recent one.  (The
nine deleted rows are all non-current, so the foreign-key constraint never
fires here.) -/
theorem quickClean_eleven_leaves_two :
    (versionsOf exEleven 0).length = 11 ∧
    (versionsOf (quickClean exEleven) 0).map (fun v => v.version_number)
      = [1, 11] := by decide

/-- **C7.** `clearAll`'s very first delete for a file targets its most
recent snapshot, which is the file's current version: the delete fails the
foreign-key constraint and the unguarded command loop aborts having
deleted nothing — on a file with eleven snapshots all eleven remain,
instead of the claimed zero.  The file records are indeed left in place. -/
theorem clearAll_fk_aborts :
    (clearAll exEleven).files = exEleven.files ∧
    versionsOf (clearAll exEleven) 0 = versionsOf exEleven 0 := by decide

/-- **C10 counterexample.** Deleting the snapshot holding a file's maximum
version number is rejected by the foreign-key constraint whenever that
snapshot is the file's current version — which `createVersion` always
makes it — so the deleted number is not reused: the delete fails and the
next `createVersion` continues past it. -/
theorem createVersion_after_failed_delete_cex :
    deleteVersion exRecon 2 = Except.error DBErr.foreignKey ∧
    ((createVersion exRecon 0 "a4").1).version_number = 4 := by decide

/-- **C10 (amended).** The numbering logic reserves nothing: whenever the
snapshot holding the maximum number `k` of a file numbered exactly `1..k`
is referenced by no file's `current_version_id` — so its deletion is
actually permitted — deleting it succeeds and the next `createVersion`
assigns `max(remaining) + 1 = k`, reusing the just-deleted number.  (In
the reachable states of the program the max-numbered snapshot is the
file's current version and the delete instead fails, per the
counterexample.) -/
theorem createVersion_reuses_deleted_max_number (s : DBState) (fid k : Nat)
    (v : VersionRecord) (c : String) (hwf : WF s)
    (hperm : List.Perm ((versionsOf s fid).map (fun w => w.version_number))
      (List.range' 1 k))
    (hv : v ∈ versionsOf s fid) (hvk : v.version_number = k)
    (hnc : ∀ f ∈ s.files, ¬ f.current_version_id = some v.id) :
    deleteVersion s v.id = Except.ok (deleteVersionRows s v.id)
    ∧ ((createVersion (deleteVersionRows s v.id) fid c).1).version_number
      = v.version_number := by
  refine ⟨deleteVersion_ok_of_not_current hnc, ?_⟩
  rw [createVersion_fst_vn]
  have hk1 : 1 ≤ k := by
    have hm : v.version_number
        ∈ (versionsOf s fid).map (fun w => w.version_number) :=
      List.mem_map_of_mem _ hv
    have hr := hperm.mem_iff.mp hm
    rw [List.mem_range'_1] at hr
    omega
  have hdel := versionsOf_deleteVersionRows s v.id fid
  have hub : ∀ w ∈ versionsOf (deleteVersionRows s v.id) fid,
      w.version_number ≤ k - 1 := by
    intro w hw
    rw [hdel, List.mem_filter] at hw
    obtain ⟨hw1, hw2⟩ := hw
    have hwr : w.version_number ∈ List.range' 1 k :=
      hperm.mem_iff.mp (List.mem_map_of_mem _ hw1)
    rw [List.mem_range'_1] at hwr
    have hid : w.id ≠ v.id := by simpa using hw2
    have hne : w.version_number ≠ k := by
      intro hEq
      apply hid
      have hwv : w = v := versions_unique_number hwf
        (versionsOf_mem.mp hw1).1 (versionsOf_mem.mp hv).1
        (by rw [(versionsOf_mem.mp hw1).2, (versionsOf_mem.mp hv).2])
        (by omega)
      rw [hwv]
    omega
  have hub2 : maxVersionNumber (deleteVersionRows s v.id) fid ≤ k - 1 := by
    rw [maxVersionNumber_eq_foldl]
    apply foldl_max_le
    intro x hx
    obtain ⟨w, hw, hwx⟩ := List.mem_map.mp hx
    rw [← hwx]
    exact hub w hw
  have hlb : k - 1 ≤ maxVersionNumber (deleteVersionRows s v.id) fid := by
    rcases Nat.lt_or_ge k 2 with h2 | h2
    · have : k = 1 := by omega
      simp [this]
    · have hmem : (k - 1) ∈ List.range' 1 k := by
        rw [List.mem_range'_1]; omega
      have hmm : (k - 1)
          ∈ (versionsOf s fid).map (fun w => w.version_number) :=
        hperm.mem_iff.mpr hmem
      obtain ⟨w, hw, hwvn⟩ := List.mem_map.mp hmm
      have hwid : w.id ≠ v.id := by
        intro hEq
        have hwv : w = v := versions_unique_id hwf
          (versionsOf_mem.mp hw).1 (versionsOf_mem.mp hv).1 hEq
        rw [hwv] at hwvn
        omega
      have hwin : w ∈ versionsOf (deleteVersionRows s v.id) fid := by
        rw [hdel, List.mem_filter]
        exact ⟨hw, by simpa using hwid⟩
      calc k - 1 = w.version_number := hwvn.symm
        _ ≤ _ := version_number_le_max hwin
  omega

/-- Witness for C10 at a concrete store whose current pointer sits on the
oldest snapshot: deleting the non-current snapshot numbered 3 succeeds and
creating a new one reassigns number 3. -/
theorem createVersion_reuses_deleted_max_number_witness :
    deleteVersion exDetached 2 = Except.ok (deleteVersionRows exDetached 2)
    ∧ ((createVersion (deleteVersionRows exDetached 2) 0
        "four").1).version_number = 3 :=
  createVersion_reuses_deleted_max_number exDetached 0 3
    ⟨2, 0, "three", 3, none⟩ "four" (by decide) (by decide) (by decide) rfl
    (by decide)

/-- **C5.** A candidate save whose content is byte-identical to the file's
latest stored snapshot content is never persisted, in either mode, and the
save handler is idempotent: running it a second time with the same path and
content changes nothing, so two identical saves create at most the one
snapshot of the first. -/
theorem onWillSave_identical_idempotent (s : DBState) (p c : String)
    (m : Bool) (_hwf : WF s) :
    (∀ f v t, getFile s p = some f → getFileVersions s f.id 1 = v :: t →
      v.content = c → onWillSave s p c m = s) ∧
    onWillSave (onWillSave s p c m) p c m = onWillSave s p c m := by
  constructor
  · intro f v t hf hv hc
    rw [onWillSave_of_getFile_some s p c m f hf]
    have hpol : policyAccepts s f c m = false := by
      unfold policyAccepts
      rw [hv]
      simp [hc]
    rw [hpol]
    simp
  · cases hf : getFile s p with
    | some f =>
      by_cases hp : policyAccepts s f c m = true
      · have h1 : onWillSave s p c m = (createVersion s f.id c).2 := by
          rw [onWillSave_of_getFile_some s p c m f hf, if_pos hp]
        rw [h1]
        have hgf : getFile (createVersion s f.id c).2 p
            = some (setCurrentVersion s.nextVersionId f.id f) := by
          rw [getFile_createVersion, hf]
          rfl
        rw [onWillSave_of_getFile_some _ p c m _ hgf]
        rw [policyAccepts_after_create s f.id c m _
          (setCurrentVersion_id _ _ _)]
        simp
      · have h0 : onWillSave s p c m = s := by
          rw [onWillSave_of_getFile_some s p c m f hf,
            if_neg (by simpa using hp)]
        rw [h0]
        exact h0
    | none =>
      by_cases hp : policyAccepts (withNewFile s p) ⟨s.nextFileId, p, none⟩
          c m = true
      · have h1 : onWillSave s p c m
            = (createVersion (withNewFile s p) s.nextFileId c).2 := by
          rw [onWillSave_of_getFile_none s p c m hf, if_pos hp]
        rw [h1]
        have hgf1 : getFile (withNewFile s p) p
            = some ⟨s.nextFileId, p, none⟩ := getFile_withNewFile s p hf
        have hgf2 : getFile (createVersion (withNewFile s p)
              s.nextFileId c).2 p
            = some (setCurrentVersion (withNewFile s p).nextVersionId
                s.nextFileId ⟨s.nextFileId, p, none⟩) := by
          rw [getFile_createVersion, hgf1]
          rfl
        rw [onWillSave_of_getFile_some _ p c m _ hgf2]
        rw [policyAccepts_after_create (withNewFile s p) s.nextFileId c m _
          (setCurrentVersion_id _ _ _)]
        simp
      · have h0 : onWillSave s p c m = withNewFile s p := by
          rw [onWillSave_of_getFile_none s p c m hf,
            if_neg (by simpa using hp)]
        rw [h0]
        have hgf1 : getFile (withNewFile s p) p
            = some ⟨s.nextFileId, p, none⟩ := getFile_withNewFile s p hf
        rw [onWillSave_of_getFile_some _ p c m _ hgf1]
        rw [if_neg (by simpa using hp)]

/-- Witness for C5 at a concrete store: an admitted save followed by the
identical save leaves the store of the first save unchanged. -/
theorem onWillSave_identical_idempotent_witness :
    onWillSave (onWillSave exOne "f.txt" "X\nY\nZ\nd" false) "f.txt"
      "X\nY\nZ\nd" false
      = onWillSave exOne "f.txt" "X\nY\nZ\nd" false :=
  (onWillSave_identical_idempotent exOne "f.txt" "X\nY\nZ\nd" false
    (by decide)).2

theorem foldl_max_range' (k : Nat) : (List.range' 1 k).foldl max 0 = k := by
  induction k with
  | zero => rfl
  | succ n ih =>
    rw [List.range'_concat, List.foldl_append, ih]
    show max n (1 + 1 * n) = n + 1
    omega

theorem maxVersionNumber_of_range {s : DBState} {fid k : Nat}
    (h : (versionsOf s fid).map (fun v => v.version_number)
      = List.range' 1 k) :
    maxVersionNumber s fid = k := by
  rw [maxVersionNumber_eq_foldl, h, foldl_max_range']

theorem WF_createVersion {s : DBState} {fid : Nat} (c : String)
    (hwf : WF s) (hf : ∃ f ∈ s.files, f.id = fid) :
    WF (createVersion s fid c).2 := by
  obtain ⟨hfp, hfb, hvp, hvb, href⟩ := hwf
  refine ⟨?_, ?_, ?_, ?_, ?_⟩
  · rw [createVersion_files, List.pairwise_map]
    refine hfp.imp ?_
    intro a b hab
    rw [setCurrentVersion_id, setCurrentVersion_id,
      setCurrentVersion_path, setCurrentVersion_path]
    exact hab
  · intro f' hmem
    rw [createVersion_files] at hmem
    obtain ⟨a, ha, hfa⟩ := List.mem_map.mp hmem
    rw [← hfa, setCurrentVersion_id]
    exact hfb a ha
  · rw [createVersion_versions, List.pairwise_append]
    refine ⟨hvp, by simp, ?_⟩
    intro a ha b hb
    rw [List.mem_singleton.mp hb]
    constructor
    · rw [createVersion_fst_id]
      have := hvb a ha
      omega
    · intro hfile
      rw [createVersion_fst_file_id] at hfile
      rw [createVersion_fst_vn]
      have : a ∈ versionsOf s fid := by
        rw [versionsOf_mem]
        exact ⟨ha, hfile⟩
      have := version_number_le_max this
      omega
  · intro v hv
    rw [createVersion_versions] at hv
    rcases List.mem_append.mp hv with h1 | h1
    · have := hvb v h1
      show v.id < s.nextVersionId + 1
      omega
    · rw [List.mem_singleton.mp h1, createVersion_fst_id]
      show s.nextVersionId < s.nextVersionId + 1
      omega
  · intro v hv
    rw [createVersion_versions] at hv
    rcases List.mem_append.mp hv with h1 | h1
    · obtain ⟨f, hfl, hfid⟩ := href v h1
      refine ⟨setCurrentVersion s.nextVersionId fid f, ?_, ?_⟩
      · rw [createVersion_files]
        exact List.mem_map_of_mem _ hfl
      · rw [setCurrentVersion_id]
        exact hfid
    · obtain ⟨f0, hf0, hid0⟩ := hf
      rw [List.mem_singleton.mp h1, createVersion_fst_file_id]
      refine ⟨setCurrentVersion s.nextVersionId fid f0, ?_, ?_⟩
      · rw [createVersion_files]
        exact List.mem_map_of_mem _ hf0
      · rw [setCurrentVersion_id]
        exact hid0

theorem exists_file_createVersion {s : DBState} {fid : Nat} (c : String)
    (hf : ∃ f ∈ s.files, f.id = fid) :
    ∃ f ∈ (createVersion s fid c).2.files, f.id = fid := by
  obtain ⟨f0, h0, hid⟩ := hf
  refine ⟨setCurrentVersion s.nextVersionId fid f0, ?_, ?_⟩
  · rw [createVersion_files]
    exact List.mem_map_of_mem _ h0
  · rw [setCurrentVersion_id]
    exact hid

theorem getFileById_createVersion_self {s : DBState} {fid : Nat}
    (c : String) (hf : ∃ f ∈ s.files, f.id = fid) :
    ∃ f, getFileById (createVersion s fid c).2 fid = some f
      ∧ f.current_version_id = some (createVersion s fid c).1.id := by
  obtain ⟨f0, hf0, hid0⟩ := getFileById_some_of_exists hf
  refine ⟨setCurrentVersion s.nextVersionId fid f0, ?_, ?_⟩
  · rw [getFileById_createVersion, hf0]
    rfl
  · unfold setCurrentVersion
    rw [if_pos (by simp [hid0])]
    rfl

theorem createVersionsAcc_cons_fst (s : DBState) (fid : Nat) (c : String)
    (cs : List String) :
    (createVersionsAcc s fid (c :: cs)).1
      = (createVersion s fid c).1
        :: (createVersionsAcc (createVersion s fid c).2 fid cs).1 := rfl

theorem createVersionsAcc_cons_snd (s : DBState) (fid : Nat) (c : String)
    (cs : List String) :
    (createVersionsAcc s fid (c :: cs)).2
      = (createVersionsAcc (createVersion s fid c).2 fid cs).2 := rfl

theorem createVersionsAcc_invariant (fid : Nat) (cs : List String) :
    ∀ (s : DBState) (k : Nat), WF s → (∃ f ∈ s.files, f.id = fid) →
    (versionsOf s fid).map (fun v => v.version_number) = List.range' 1 k →
    ((createVersionsAcc s fid cs).1.map (fun v => v.version_number)
        = List.range' (k + 1) cs.length) ∧
    ((versionsOf (createVersionsAcc s fid cs).2 fid).map
        (fun v => v.version_number) = List.range' 1 (k + cs.length)) ∧
    (∀ r, (createVersionsAcc s fid cs).1.getLast? = some r →
      ∃ f, getFileById (createVersionsAcc s fid cs).2 fid = some f
        ∧ f.current_version_id = some r.id) := by
  induction cs with
  | nil =>
    intro s k hwf hf hinv
    refine ⟨rfl, by simpa using hinv, ?_⟩
    intro r hr
    cases hr
  | cons c cs ih =>
    intro s k hwf hf hinv
    have hmax : maxVersionNumber s fid = k := maxVersionNumber_of_range hinv
    have hvn : (createVersion s fid c).1.version_number = k + 1 := by
      rw [createVersion_fst_vn, hmax]
    have hvers : (versionsOf (createVersion s fid c).2 fid).map
        (fun v => v.version_number) = List.range' 1 (k + 1) := by
      rw [versionsOf_createVersion, if_pos rfl, List.map_append, hinv,
        List.range'_concat]
      simp [hvn]
      omega
    have hwf2 : WF (createVersion s fid c).2 := WF_createVersion c hwf hf
    have hf2 : ∃ f ∈ (createVersion s fid c).2.files, f.id = fid :=
      exists_file_createVersion c hf
    obtain ⟨ih1, ih2, ih3⟩ :=
      ih (createVersion s fid c).2 (k + 1) hwf2 hf2 hvers
    refine ⟨?_, ?_, ?_⟩
    · rw [createVersionsAcc_cons_fst, List.map_cons, ih1, hvn,
        List.length_cons, List.range'_succ]
    · rw [createVersionsAcc_cons_snd]
      have harith : k + (c :: cs).length = k + 1 + cs.length := by
        rw [List.length_cons]
        omega
      rw [harith]
      exact ih2
    · intro r' hr'
      rw [createVersionsAcc_cons_fst] at hr'
      cases hcs : cs with
      | nil =>
        subst hcs
        have hnil : (createVersionsAcc (createVersion s fid c).2 fid []).1
            = [] := rfl
        rw [hnil] at hr'
        have hr2 : (createVersion s fid c).1 = r' := by simpa using hr'
        obtain ⟨f, hfid, hcvi⟩ := getFileById_createVersion_self c hf
        refine ⟨f, ?_, ?_⟩
        · rw [createVersionsAcc_cons_snd]
          exact hfid
        · rw [hcvi, hr2]
      | cons c2 cs2 =>
        subst hcs
        rw [createVersionsAcc_cons_fst (createVersion s fid c).2 fid c2 cs2,
          List.getLast?_cons_cons,
          ← createVersionsAcc_cons_fst (createVersion s fid c).2 fid c2 cs2]
          at hr'
        obtain ⟨f, hfid, hcvi⟩ := ih3 r' hr'
        refine ⟨f, ?_, hcvi⟩
        rw [createVersionsAcc_cons_snd]
        exact hfid

/-- **C1.** Starting from a well-formed store in which file `fid` exists
and has no snapshots, a sequence of `createVersion(fid, c1), ...,
createVersion(fid, cN)` produces snapshots whose version numbers are
exactly `1..N` in creation order, and after each call the file's
`current_version_id` equals the id of the snapshot just created. -/
theorem createVersion_sequence (s : DBState) (fid : Nat) (cs : List String)
    (hwf : WF s) (hf : ∃ f ∈ s.files, f.id = fid)
    (h0 : versionsOf s fid = []) :
    ((createVersionsAcc s fid cs).1.map (fun v => v.version_number)
      = List.range' 1 cs.length) ∧
    (∀ n, n < cs.length →
      ∃ r f,
        (createVersionsAcc s fid (cs.take (n + 1))).1.getLast? = some r
        ∧ getFileById (createVersionsAcc s fid (cs.take (n + 1))).2 fid
            = some f
        ∧ f.current_version_id = some r.id) := by
  have hbase : (versionsOf s fid).map (fun v => v.version_number)
      = List.range' 1 0 := by
    rw [h0]
    rfl
  constructor
  · exact (createVersionsAcc_invariant fid cs s 0 hwf hf hbase).1
  · intro n hn
    obtain ⟨h1, h2, h3⟩ :=
      createVersionsAcc_invariant fid (cs.take (n + 1)) s 0 hwf hf hbase
    have hlen : (createVersionsAcc s fid (cs.take (n + 1))).1.length
        = n + 1 := by
      have hcong := congrArg List.length h1
      rw [List.length_map, List.length_range', List.length_take] at hcong
      omega
    have hne : (createVersionsAcc s fid (cs.take (n + 1))).1 ≠ [] := by
      intro hEq
      rw [hEq] at hlen
      simp at hlen
    obtain ⟨r, hr⟩ :=
      Option.isSome_iff_exists.mp (List.getLast?_isSome.mpr hne)
    obtain ⟨f, hfid, hcvi⟩ := h3 r hr
    exact ⟨r, f, hr, hfid, hcvi⟩

/-- Witness for C1 at a concrete store: two snapshots get numbers `[1, 2]`
and after the second call the pointer is on the snapshot just created. -/
theorem createVersion_sequence_witness :
    ((createVersionsAcc exSeq 0 ["x", "y"]).1.map
        (fun v => v.version_number) = List.range' 1 2)
    ∧ (∃ r f,
        (createVersionsAcc exSeq 0 (["x", "y"].take 2)).1.getLast? = some r
        ∧ getFileById (createVersionsAcc exSeq 0 (["x", "y"].take 2)).2 0
            = some f
        ∧ f.current_version_id = some r.id) := by
  have h := createVersion_sequence exSeq 0 ["x", "y"] (by decide)
    ⟨⟨0, "a.txt", none⟩, by decide, rfl⟩ (by decide)
  exact ⟨h.1, h.2 1 (by simp)⟩

end LLMCheckpoint
